import Mathlib

/-!
# Verification of the PrefPaneUtil disabled-list reconciler

Shallow embedding of `PrefPaneUtil.py`, the tool that locks/unlocks macOS
System Preferences panes by editing the `DisabledPreferencePanes` value of
the host-wide preference store, with a single snapshot file used by the
`--unlockall` / `--restore` workflow.

The preference store value is modelled as `Option (List Ident)` (`none` is
the absent value, `CFPreferencesCopyValue` returning `None`).  The snapshot
file `/tmp/prefpanes.restore` is modelled as `Option String` (`none` means
the file does not exist; `some c` is its exact byte content).  Python string
operations used by the source (`str.rstrip`, file line iteration) are
modelled character-exactly on `List Char`.
-/

namespace PrefPaneUtil

/-- Identifiers are opaque strings (pane bundle identifiers). -/
abbrev Ident := String

/-- Fatal error conditions of the tool (each causes `sys.exit(1)` in the
source, before any write is performed). -/
inductive PPError where
  /-- "No panes are currently locked, exiting!" -/
  | precondition : PPError
  /-- "/tmp/prefpanes.restore doesn't exist, sorry!" -/
  | notFound : PPError
deriving DecidableEq, Repr

/-- The persisted state the tool manipulates: the store's
`DisabledPreferencePanes` value (the mirrored `HiddenPreferencePanes` key
always receives the same value, so one field models both) and the snapshot
file content. -/
structure SysState where
  disabled : Option (List Ident)
  snapshot : Option String
deriving DecidableEq, Repr

/-! ## Python string primitives used by the snapshot file code -/

/-- The characters stripped by Python 2 `str.rstrip()` (whitespace). -/
def pyIsSpace (c : Char) : Bool :=
  c = ' ' || c = '\t' || c = '\n' || c = '\r' || c = '\x0b' || c = '\x0c'

/-- `line.rstrip()` on the character list of a Python byte string. -/
def rstripChars (cs : List Char) : List Char :=
  (cs.reverse.dropWhile pyIsSpace).reverse

/-- Iterating over the lines of a file with content `cs`
(`for line in restore_file`).  Python yields each chunk up to and including
its `'\n'` terminator, and a final unterminated chunk when nonempty; since
the source immediately applies `rstrip` to every line (which removes a
trailing `'\n'`), the terminator is dropped here already. -/
def fileLinesAux : List Char → List Char → List (List Char)
  | acc, [] => if acc = [] then [] else [acc.reverse]
  | acc, c :: cs =>
    if c = '\n' then acc.reverse :: fileLinesAux [] cs
    else fileLinesAux (c :: acc) cs

/-- The lines of a file with content `cs` (terminators dropped, see
`fileLinesAux`). -/
def fileLines (cs : List Char) : List (List Char) :=
  fileLinesAux [] cs

/-- `unlock_all` writes the snapshot file by emitting `pane + "\n"` for each
pane of the current list, in order. -/
def encodeSnapshot (l : List Ident) : String :=
  ⟨(l.map (fun p => p.data ++ ['\n'])).flatten⟩

/-- `restore_all` reads the snapshot file back:
`restore_locks.append(line.rstrip())` for each line. -/
def decodeSnapshot (c : String) : List Ident :=
  (fileLines c.data).map (fun cs => ⟨rstripChars cs⟩)

/-! ## The reconciliation operations (`lock_unlock_panes`) -/

/-- The `--lock` loop over a present current list: for each requested pane,
scan `new_locked_panes`; if found, skip ("already locked"), else append. -/
def lockList (cur toLock : List Ident) : List Ident :=
  toLock.foldl (fun acc p => if p ∈ acc then acc else acc ++ [p]) cur

/-- `applyLock`: the `--lock` branch of `lock_unlock_panes`.  When the
current value is absent (`locked_panes == None`) the validated request is
written verbatim (`modify_panes(panes_to_modify)`); otherwise the loop
`lockList` runs on a mutable copy of the current list. -/
def applyLock : Option (List Ident) → List Ident → List Ident
  | none, toLock => toLock
  | some cur, toLock => lockList cur toLock

/-- The `--unlock` loop: for each requested pane, if present in
`new_locked_panes`, `list.remove` it (Python removes the first occurrence,
i.e. `List.erase`); otherwise do nothing. -/
def unlockList (cur toUnlock : List Ident) : List Ident :=
  toUnlock.foldl (fun acc p => if p ∈ acc then acc.erase p else acc) cur

/-- `applyUnlock`: the `--unlock` branch of `lock_unlock_panes`.  When the
current value is absent the tool prints "No panes are currently locked,
exiting!" and exits 1 before any write. -/
def applyUnlock : Option (List Ident) → List Ident → Except PPError (List Ident)
  | none, _ => .error .precondition
  | some cur, toUnlock => .ok (unlockList cur toUnlock)

/-- The `--lock` operation as a state transition (the computed list is
persisted with `modify_panes`, which writes both store keys and
synchronizes).  The lock branch never fails. -/
def runLock (s : SysState) (toLock : List Ident) : SysState :=
  { s with disabled := some (applyLock s.disabled toLock) }

/-- The `--unlock` operation as a state transition. -/
def runUnlock (s : SysState) (toUnlock : List Ident) : Except PPError SysState :=
  match applyUnlock s.disabled toUnlock with
  | .error e => .error e
  | .ok l => .ok { s with disabled := some l }

/-- `unlock_all` (`--unlockall`): refuse when the current value is absent;
otherwise delete any existing snapshot file, write a fresh one holding the
current list (one pane per line), and persist the absent value. -/
def unlock_all (s : SysState) : Except PPError SysState :=
  match s.disabled with
  | none => .error .precondition
  | some cur => .ok { disabled := none, snapshot := some (encodeSnapshot cur) }

/-- `restore_all` (`--restore`): fail when the snapshot file does not exist;
otherwise persist its decoded lines and delete the file. -/
def restore_all (s : SysState) : Except PPError SysState :=
  match s.snapshot with
  | none => .error .notFound
  | some c => .ok { disabled := some (decodeSnapshot c), snapshot := none }

/-- Dispatcher semantics for one fallible operation: an error path calls
`sys.exit(1)` having performed no write, so the persisted state is
unchanged and the exit code is 1; a success path yields the new state and
exit code 0. -/
def applyStep (s : SysState) (f : SysState → Except PPError SysState) :
    SysState × Nat :=
  match f s with
  | .ok t => (t, 0)
  | .error _ => (s, 1)

/-! ## Validation (`lock_unlock_panes`, lines 142-153) -/

/-- The merged catalog `all_panes` (short bundle name, bundle identifier). -/
abbrev Catalog := List (Ident × Ident)

/-- `all_panes.values()`. -/
def catalogValues (c : Catalog) : List Ident :=
  c.map Prod.snd

/-- `pane in all_panes.values()`: an identifier is valid iff it occurs among
the values of the merged catalog mapping. -/
def isValidId (c : Catalog) (p : Ident) : Bool :=
  decide (p ∈ catalogValues c)

/-- The keys of the `valid_id` dict that map to `False`.  The dict is keyed
by pane string, so duplicate request entries collapse to one key
(`List.dedup`); Python 2 iterates the dict in unspecified order, but the
removals performed below are of distinct values and therefore commute, so
any fixed enumeration order models the source. -/
def invalidIds (request : List Ident) (c : Catalog) : List Ident :=
  request.dedup.filter (fun p => !isValidId c p)

/-- The validation pass: for each invalid key, print "... is not a valid
bundle identifier, removing" and `panes_to_modify.remove(key)` — removing
only the FIRST occurrence of that key (`List.erase`). -/
def validateFilter (request : List Ident) (c : Catalog) : List Ident :=
  (invalidIds request c).foldl (fun acc k => acc.erase k) request

/-! ## Helper lemmas -/

theorem mem_lockList (L : List Ident) :
    ∀ (cur : List Ident) (x : Ident), x ∈ lockList cur L ↔ x ∈ cur ∨ x ∈ L := by
  induction L with
  | nil => intro cur x; simp [lockList]
  | cons p L ih =>
    intro cur x
    rw [show lockList cur (p :: L) = lockList (if p ∈ cur then cur else cur ++ [p]) L from rfl,
      ih]
    by_cases hp : p ∈ cur
    · simp only [if_pos hp, List.mem_cons]
      constructor
      · rintro (h | h)
        · exact Or.inl h
        · exact Or.inr (Or.inr h)
      · rintro (h | rfl | h)
        · exact Or.inl h
        · exact Or.inl hp
        · exact Or.inr h
    · simp [if_neg hp, List.mem_append, or_assoc]

theorem lockList_of_subset :
    ∀ (L cur : List Ident), (∀ p ∈ L, p ∈ cur) → lockList cur L = cur := by
  intro L
  induction L with
  | nil => intro cur _; rfl
  | cons p L ih =>
    intro cur h
    have hp : p ∈ cur := h p (List.mem_cons_self p L)
    rw [show lockList cur (p :: L) = lockList (if p ∈ cur then cur else cur ++ [p]) L from rfl,
      if_pos hp]
    exact ih cur fun q hq => h q (List.mem_cons_of_mem p hq)

theorem lockList_disjoint_append :
    ∀ (L cur : List Ident), L.Nodup → (∀ p ∈ L, p ∉ cur) → lockList cur L = cur ++ L := by
  intro L
  induction L with
  | nil => intro cur _ _; simp [lockList]
  | cons p L ih =>
    intro cur hnd hdisj
    have hp : p ∉ cur := hdisj p (List.mem_cons_self p L)
    rw [show lockList cur (p :: L) = lockList (if p ∈ cur then cur else cur ++ [p]) L from rfl,
      if_neg hp]
    have hL : L.Nodup := hnd.of_cons
    have hpL : p ∉ L := (List.nodup_cons.mp hnd).1
    have : lockList (cur ++ [p]) L = (cur ++ [p]) ++ L := by
      apply ih (cur ++ [p]) hL
      intro q hq
      simp only [List.mem_append, List.mem_singleton]
      rintro (hq' | rfl)
      · exact hdisj q (List.mem_cons_of_mem p hq) hq'
      · exact hpL hq
    rw [this, List.append_assoc, List.singleton_append]

theorem nodup_lockList :
    ∀ (L cur : List Ident), cur.Nodup → (lockList cur L).Nodup := by
  intro L
  induction L with
  | nil => intro cur h; exact h
  | cons p L ih =>
    intro cur h
    rw [show lockList cur (p :: L) = lockList (if p ∈ cur then cur else cur ++ [p]) L from rfl]
    by_cases hp : p ∈ cur
    · rw [if_pos hp]; exact ih cur h
    · rw [if_neg hp]
      apply ih
      rw [List.nodup_append]
      refine ⟨h, List.nodup_singleton p, ?_⟩
      intro a ha hb
      rw [List.mem_singleton] at hb
      exact hp (hb ▸ ha)

theorem foldl_erase_eq_filter :
    ∀ (ks l : List Ident), l.Nodup →
      ks.foldl (fun acc k => acc.erase k) l = l.filter (fun x => !decide (x ∈ ks)) := by
  intro ks
  induction ks with
  | nil =>
    intro l _
    simp only [List.foldl_nil]
    rw [List.filter_eq_self.mpr]
    intro x _
    simp
  | cons k ks ih =>
    intro l hl
    rw [List.foldl_cons, ih (l.erase k) (hl.erase k), hl.erase_eq_filter k,
      List.filter_filter]
    apply List.filter_congr
    intro x _
    by_cases hxk : x = k <;> by_cases hxks : x ∈ ks <;>
      simp [hxk, hxks, List.mem_cons]

theorem unlockList_eq_foldl_erase :
    ∀ (L cur : List Ident), unlockList cur L = L.foldl (fun acc k => acc.erase k) cur := by
  intro L
  induction L with
  | nil => intro cur; rfl
  | cons p L ih =>
    intro cur
    rw [show unlockList cur (p :: L) = unlockList (if p ∈ cur then cur.erase p else cur) L
        from rfl,
      List.foldl_cons]
    by_cases hp : p ∈ cur
    · rw [if_pos hp]; exact ih (cur.erase p)
    · rw [if_neg hp, List.erase_of_not_mem hp]; exact ih cur

theorem unlockList_eq_filter (cur L : List Ident) (hcur : cur.Nodup) :
    unlockList cur L = cur.filter (fun x => !decide (x ∈ L)) := by
  rw [unlockList_eq_foldl_erase]
  exact foldl_erase_eq_filter L cur hcur

theorem length_filter_add_length_filter_not (l : List Ident) (p : Ident → Bool) :
    (l.filter p).length + (l.filter (fun x => !p x)).length = l.length := by
  induction l with
  | nil => rfl
  | cons a l ih =>
    by_cases h : p a = true <;> simp [List.filter_cons, h, ← ih] <;> omega

theorem length_filter_mem (D L : List Ident) (hD : D.Nodup) (hL : L.Nodup)
    (hsub : ∀ p ∈ L, p ∈ D) :
    (D.filter (fun x => decide (x ∈ L))).length = L.length := by
  have h₁ : L.length ≤ (D.filter (fun x => decide (x ∈ L))).length := by
    apply List.Subperm.length_le
    apply hL.subperm
    intro x hx
    rw [List.mem_filter]
    exact ⟨hsub x hx, by simpa using hx⟩
  have h₂ : (D.filter (fun x => decide (x ∈ L))).length ≤ L.length := by
    apply List.Subperm.length_le
    apply (hD.filter _).subperm
    intro x hx
    rw [List.mem_filter] at hx
    simpa using hx.2
  omega

theorem fileLinesAux_append (p : List Char) (hp : '\n' ∉ p) :
    ∀ (acc rest : List Char),
      fileLinesAux acc (p ++ '\n' :: rest) = (acc.reverse ++ p) :: fileLinesAux [] rest := by
  induction p with
  | nil =>
    intro acc rest
    simp [fileLinesAux]
  | cons c p ih =>
    intro acc rest
    have hc : ¬(c = '\n') := fun h => hp (h ▸ List.mem_cons_self c p)
    rw [List.cons_append]
    show (if c = '\n' then _ else fileLinesAux (c :: acc) (p ++ '\n' :: rest)) = _
    rw [if_neg hc, ih (fun h => hp (List.mem_cons_of_mem c h)) (c :: acc) rest]
    simp [List.reverse_cons, List.append_assoc]

theorem fileLines_flatten :
    ∀ (ls : List (List Char)), (∀ p ∈ ls, '\n' ∉ p) →
      fileLines ((ls.map (fun p => p ++ ['\n'])).flatten) = ls := by
  intro ls
  induction ls with
  | nil => intro _; rfl
  | cons p ls ih =>
    intro h
    have hp : '\n' ∉ p := h p (List.mem_cons_self p ls)
    unfold fileLines
    rw [List.map_cons, List.flatten_cons, List.append_assoc, List.singleton_append,
      fileLinesAux_append p hp]
    simp only [List.reverse_nil, List.nil_append]
    exact congrArg (p :: ·) (ih fun q hq => h q (List.mem_cons_of_mem p hq))

theorem decode_encode (l : List Ident)
    (h : ∀ p ∈ l, '\n' ∉ p.data ∧ rstripChars p.data = p.data) :
    decodeSnapshot (encodeSnapshot l) = l := by
  show (fileLines (l.map (fun p => p.data ++ ['\n'])).flatten).map (fun cs => (⟨rstripChars cs⟩ : String)) = l
  have hmap : l.map (fun p => p.data ++ ['\n'])
      = (l.map String.data).map (fun cs => cs ++ ['\n']) := by
    rw [List.map_map]; rfl
  rw [hmap, fileLines_flatten (l.map String.data)
    (by intro cs hcs
        rcases List.mem_map.mp hcs with ⟨p, hpl, rfl⟩
        exact (h p hpl).1),
    List.map_map]
  have : ∀ p ∈ l, ((fun cs => (⟨rstripChars cs⟩ : String)) ∘ String.data) p = id p := by
    intro p hpl
    show (⟨rstripChars p.data⟩ : String) = p
    rw [(h p hpl).2]
  rw [List.map_congr_left this, List.map_id]

/-! ## Claim theorems -/

/-- C1, counterexample: the snapshot-then-restore round trip is NOT the
identity on every non-absent list.  For `D = ["a "]` (an identifier with a
trailing space), `unlock_all` writes the snapshot file content `"a \n"`,
and `restore_all` reads it back with `rstrip`, persisting `["a"] ≠ ["a "]`. -/
theorem C1_counterexample :
    unlock_all ⟨some ["a "], none⟩ = .ok ⟨none, some "a \n"⟩ ∧
    restore_all ⟨none, some "a \n"⟩ = .ok ⟨some ["a"], none⟩ ∧
    ("a" : Ident) ≠ "a " :=
  ⟨rfl, rfl, by decide⟩

/-- C1, amended: for every non-absent DisabledList `D` whose identifiers
contain no newline character and carry no trailing whitespace (are fixed by
`rstrip`), running `unlock_all` and then `restore_all` on the snapshot it
produced persists a value equal to `D`. -/
theorem C1_roundTrip (s : SysState) (D : List Ident) (hD : s.disabled = some D)
    (hgood : ∀ p ∈ D, '\n' ∉ p.data ∧ rstripChars p.data = p.data) :
    unlock_all s = .ok ⟨none, some (encodeSnapshot D)⟩ ∧
    restore_all ⟨none, some (encodeSnapshot D)⟩ = .ok ⟨some D, none⟩ := by
  constructor
  · simp only [unlock_all, hD]
  · have hde : decodeSnapshot (encodeSnapshot D) = D := decode_encode D hgood
    simp only [restore_all, hde]

/-- Witness for C1's amended theorem at `D = ["a", "b"]` (the spec's own
round-trip scenario). -/
theorem C1_roundTrip_witness :
    unlock_all ⟨some ["a", "b"], none⟩ = .ok ⟨none, some (encodeSnapshot ["a", "b"])⟩ ∧
    restore_all ⟨none, some (encodeSnapshot ["a", "b"])⟩ = .ok ⟨some ["a", "b"], none⟩ :=
  C1_roundTrip ⟨some ["a", "b"], none⟩ ["a", "b"] rfl (by decide)

/-- C2, counterexample: in the scenario of the claim (start absent, lock
`["com.example.sound"]`, then unlock it), the persisted value is the
present empty list `some []`, not the absent value, and a subsequent
`unlock_all` on that state succeeds (no `PreconditionError`), snapshotting
the empty list. -/
theorem C2_counterexample :
    runUnlock (runLock ⟨none, none⟩ ["com.example.sound"]) ["com.example.sound"]
      = .ok ⟨some [], none⟩ ∧
    unlock_all ⟨some [], none⟩ = .ok ⟨none, some ""⟩ ∧
    some ([] : List Ident) ≠ none :=
  ⟨rfl, rfl, by decide⟩

/-- C2, amended: unlocking the only remaining identifier persists the empty
list — a present value distinct from absent — and a subsequent
`unlock_all` on that state succeeds, writing an empty snapshot file and
persisting the absent value. -/
theorem C2_unlock_last (p : Ident) (sn : Option String) :
    runUnlock ⟨some [p], sn⟩ [p] = .ok ⟨some [], sn⟩ ∧
    unlock_all ⟨some [], sn⟩ = .ok ⟨none, some (encodeSnapshot [])⟩ ∧
    some ([] : List Ident) ≠ none := by
  refine ⟨?_, rfl, by simp⟩
  simp [runUnlock, applyUnlock, unlockList]

/-- C3, counterexample: a lock request of a valid identifier repeated twice,
applied when the current list is absent, passes validation unchanged and is
persisted verbatim — the successful write contains a duplicate entry. -/
theorem C3_counterexample :
    validateFilter ["a", "a"] [("a", "a")] = ["a", "a"] ∧
    runLock ⟨none, none⟩ ["a", "a"] = ⟨some ["a", "a"], none⟩ ∧
    ¬ (["a", "a"] : List Ident).Nodup := by
  refine ⟨by decide, rfl, by decide⟩

/-- C3, amended: for lock and unlock applied to a present, duplicate-free
current list the written value contains exactly the intended identifiers
with no duplicates (union for lock, difference for unlock), and disable-all
writes the absent value; but a lock applied when the current list is absent
writes the validated request verbatim (so duplicates in the request are
persisted), and an unlock that empties the list writes the empty list, not
the absent value. -/
theorem C3_written_value (cur L : List Ident) (hcur : cur.Nodup) :
    ((lockList cur L).Nodup ∧ ∀ x, x ∈ lockList cur L ↔ x ∈ cur ∨ x ∈ L) ∧
    ((unlockList cur L).Nodup ∧ ∀ x, x ∈ unlockList cur L ↔ x ∈ cur ∧ x ∉ L) ∧
    applyLock none L = L ∧
    (∀ sn, unlock_all ⟨some cur, sn⟩ = .ok ⟨none, some (encodeSnapshot cur)⟩) := by
  refine ⟨⟨nodup_lockList L cur hcur, fun x => mem_lockList L cur x⟩, ⟨?_, ?_⟩, rfl,
    fun sn => rfl⟩
  · rw [unlockList_eq_filter cur L hcur]
    exact hcur.filter _
  · intro x
    rw [unlockList_eq_filter cur L hcur, List.mem_filter]
    simp

/-- Witness for C3's amended theorem at `cur = ["a"]`, `L = ["b"]`. -/
theorem C3_written_value_witness :
    (["a"] : List Ident).Nodup ∧
    (lockList ["a"] ["b"]).Nodup ∧
    ("b" ∈ lockList ["a"] ["b"] ↔ "b" ∈ (["a"] : List Ident) ∨ "b" ∈ (["b"] : List Ident)) ∧
    (unlockList ["a"] ["b"]).Nodup ∧
    applyLock none ["b"] = ["b"] ∧
    unlock_all ⟨some ["a"], none⟩ = .ok ⟨none, some (encodeSnapshot ["a"])⟩ := by
  have h := C3_written_value ["a"] ["b"] (by decide)
  exact ⟨by decide, h.1.1, h.1.2 "b", h.2.1.1, h.2.2.1, h.2.2.2 none⟩

/-- C4: for every DisabledList `D` and duplicate-free identifier list `L`
disjoint from `D`, `applyLock (some D) L` is `D` followed by `L` in input
order, of length `|D| + |L|`; when the current value is absent the result
is exactly `L`; and `applyLock` never removes existing entries. -/
theorem C4_applyLock (D L : List Ident) (hL : L.Nodup) (hdisj : ∀ p ∈ L, p ∉ D) :
    applyLock (some D) L = D ++ L ∧
    (applyLock (some D) L).length = D.length + L.length ∧
    applyLock none L = L ∧
    ∀ (D₀ L₀ : List Ident), ∀ x ∈ D₀, x ∈ applyLock (some D₀) L₀ := by
  have h : lockList D L = D ++ L := lockList_disjoint_append L D hL hdisj
  refine ⟨h, ?_, rfl, ?_⟩
  · show (lockList D L).length = _
    rw [h, List.length_append]
  · intro D₀ L₀ x hx
    exact (mem_lockList L₀ D₀ x).mpr (Or.inl hx)

/-- Witness for C4 at `D = ["a"]`, `L = ["b"]`. -/
theorem C4_applyLock_witness :
    (["b"] : List Ident).Nodup ∧
    applyLock (some ["a"]) ["b"] = ["a"] ++ ["b"] ∧
    (applyLock (some ["a"]) ["b"]).length = (["a"] : List Ident).length + (["b"] : List Ident).length ∧
    applyLock none ["b"] = ["b"] ∧
    ("a" ∈ applyLock (some ["a"]) ["c"]) := by
  have h := C4_applyLock ["a"] ["b"] (by decide) (by decide)
  exact ⟨by decide, h.1, h.2.1, h.2.2.1, h.2.2.2 ["a"] ["c"] "a" (by decide)⟩

/-- C5: for a duplicate-free DisabledList `D`, `applyUnlock (some D) L`
returns `D` with exactly the members of `L` removed; when additionally `L`
is a duplicate-free subset of `D` the result has length `|D| - |L|`; and an
identifier not present in `D` leaves `D` unchanged with no error. -/
theorem C5_applyUnlock (D L : List Ident) (hD : D.Nodup) :
    applyUnlock (some D) L = .ok (D.filter (fun x => !decide (x ∈ L))) ∧
    (L.Nodup → (∀ p ∈ L, p ∈ D) →
      (D.filter (fun x => !decide (x ∈ L))).length = D.length - L.length) ∧
    (∀ p : Ident, p ∉ D → applyUnlock (some D) [p] = .ok D) := by
  refine ⟨?_, ?_, ?_⟩
  · show Except.ok (unlockList D L) = _
    rw [unlockList_eq_filter D L hD]
  · intro hL hsub
    have h1 : (D.filter (fun x => decide (x ∈ L))).length
        + (D.filter (fun x => !decide (x ∈ L))).length = D.length :=
      length_filter_add_length_filter_not D _
    have h2 := length_filter_mem D L hD hL hsub
    omega
  · intro p hp
    show Except.ok (unlockList D [p]) = _
    rw [show unlockList D [p] = if p ∈ D then D.erase p else D from rfl, if_neg hp]

/-- Witness for C5 at `D = ["a", "b"]`, `L = ["a"]`. -/
theorem C5_applyUnlock_witness :
    (["a", "b"] : List Ident).Nodup ∧
    applyUnlock (some ["a", "b"]) ["a"]
      = .ok ((["a", "b"] : List Ident).filter (fun x => !decide (x ∈ (["a"] : List Ident)))) ∧
    ((["a", "b"] : List Ident).filter (fun x => !decide (x ∈ (["a"] : List Ident)))).length
      = (["a", "b"] : List Ident).length - (["a"] : List Ident).length ∧
    applyUnlock (some ["a", "b"]) ["c"] = .ok ["a", "b"] := by
  have h := C5_applyUnlock ["a", "b"] ["a"] (by decide)
  exact ⟨by decide, h.1, h.2.1 (by decide) (by decide), h.2.2 "c" (by decide)⟩

/-- C6: when the current DisabledList is absent, `unlock_all` fails with
`PreconditionError` and `applyUnlock` fails with `PreconditionError` for
every request; in both cases the run exits with code 1 and the persisted
state is unchanged (the check happens before any write). -/
theorem C6_absent (s : SysState) (h : s.disabled = none) :
    applyStep s unlock_all = (s, 1) ∧
    (∀ L, applyStep s (fun t => runUnlock t L) = (s, 1)) ∧
    unlock_all s = .error .precondition ∧
    (∀ L, applyUnlock s.disabled L = .error .precondition) := by
  cases s with
  | mk d sn =>
    simp only [SysState.disabled] at h
    subst h
    exact ⟨rfl, fun L => rfl, rfl, fun L => rfl⟩

/-- Witness for C6 at the empty state and the request `["a"]`. -/
theorem C6_absent_witness :
    applyStep ⟨none, none⟩ unlock_all = (⟨none, none⟩, 1) ∧
    applyStep ⟨none, none⟩ (fun t => runUnlock t ["a"]) = (⟨none, none⟩, 1) ∧
    unlock_all ⟨none, none⟩ = .error .precondition ∧
    applyUnlock none ["a"] = .error .precondition := by
  have h := C6_absent ⟨none, none⟩ rfl
  exact ⟨h.1, h.2.1 ["a"], h.2.2.1, h.2.2.2 ["a"]⟩

/-- C7: `unlock_all` overwrites any existing snapshot file unconditionally
with the current list; a successful `restore_all` persists the decoded
snapshot contents and deletes the snapshot file, so a second restore
immediately after fails with `NotFoundError`. -/
theorem C7_snapshot (s : SysState) (cur : List Ident) (h : s.disabled = some cur) :
    unlock_all s = .ok ⟨none, some (encodeSnapshot cur)⟩ ∧
    ∀ (t : SysState) (c : String), t.snapshot = some c →
      restore_all t = .ok ⟨some (decodeSnapshot c), none⟩ ∧
      restore_all ⟨some (decodeSnapshot c), none⟩ = .error .notFound := by
  constructor
  · simp only [unlock_all, h]
  · intro t c ht
    constructor
    · simp only [restore_all, ht]
    · rfl

/-- Witness for C7 at the spec's scenario `D = ["a", "b"]`, with an old
snapshot file present (it is overwritten). -/
theorem C7_snapshot_witness :
    unlock_all ⟨some ["a", "b"], some "old\n"⟩ = .ok ⟨none, some (encodeSnapshot ["a", "b"])⟩ ∧
    restore_all ⟨none, some (encodeSnapshot ["a", "b"])⟩
      = .ok ⟨some (decodeSnapshot (encodeSnapshot ["a", "b"])), none⟩ ∧
    restore_all ⟨some (decodeSnapshot (encodeSnapshot ["a", "b"])), none⟩
      = .error .notFound := by
  have h := C7_snapshot ⟨some ["a", "b"], some "old\n"⟩ ["a", "b"] rfl
  have h2 := h.2 ⟨none, some (encodeSnapshot ["a", "b"])⟩ (encodeSnapshot ["a", "b"]) rfl
  exact ⟨h.1, h2.1, h2.2⟩

/-- C8: an identifier is classified valid iff it occurs among the values of
the catalog mapping, and for a duplicate-free request the validation pass
removes exactly the invalid identifiers, keeping the valid ones for further
processing (no abort). -/
theorem C8_validate (request : List Ident) (c : Catalog) (hreq : request.Nodup) :
    (∀ p, isValidId c p = true ↔ p ∈ catalogValues c) ∧
    validateFilter request c = request.filter (fun p => isValidId c p) ∧
    (∀ p, p ∈ validateFilter request c ↔ p ∈ request ∧ p ∈ catalogValues c) := by
  have hmain : validateFilter request c = request.filter (fun p => isValidId c p) := by
    unfold validateFilter
    rw [foldl_erase_eq_filter _ request hreq]
    apply List.filter_congr
    intro x hx
    by_cases hv : isValidId c x = true
    · have hni : x ∉ invalidIds request c := by
        unfold invalidIds
        rw [List.mem_filter]
        rintro ⟨-, hbad⟩
        rw [hv] at hbad
        simp at hbad
      simp [hni, hv]
    · have hni : x ∈ invalidIds request c := by
        unfold invalidIds
        rw [List.mem_filter]
        refine ⟨List.mem_dedup.mpr hx, ?_⟩
        simp [Bool.not_eq_true] at hv
        simp [hv]
      simp [hni, Bool.not_eq_true] at hv ⊢
      simp [hv]
  refine ⟨fun p => by simp [isValidId], hmain, ?_⟩
  intro p
  rw [hmain, List.mem_filter]
  simp [isValidId]

/-- Witness for C8 at the spec's example: request `{"a.b", "x.y"}`, catalog
`{"a.b" ↦ "a.b"}`. -/
theorem C8_validate_witness :
    (["a.b", "x.y"] : List Ident).Nodup ∧
    (isValidId [("a.b", "a.b")] "a.b" = true ↔ "a.b" ∈ catalogValues [("a.b", "a.b")]) ∧
    validateFilter ["a.b", "x.y"] [("a.b", "a.b")]
      = (["a.b", "x.y"] : List Ident).filter (fun p => isValidId [("a.b", "a.b")] p) ∧
    ("x.y" ∈ validateFilter ["a.b", "x.y"] [("a.b", "a.b")] ↔
      "x.y" ∈ (["a.b", "x.y"] : List Ident) ∧ "x.y" ∈ catalogValues [("a.b", "a.b")]) := by
  have h := C8_validate ["a.b", "x.y"] [("a.b", "a.b")] (by decide)
  exact ⟨by decide, h.1 "a.b", h.2.1, h.2.2 "x.y"⟩

/-- C9: `applyLock` is idempotent in its second argument: re-locking the
same batch on the result changes nothing, for every current value
(including absent) and every request list. -/
theorem C9_applyLock_idem (D : Option (List Ident)) (L : List Ident) :
    applyLock (some (applyLock D L)) L = applyLock D L := by
  cases D with
  | none =>
    show lockList L L = L
    exact lockList_of_subset L L fun p hp => hp
  | some cur =>
    show lockList (lockList cur L) L = lockList cur L
    exact lockList_of_subset L (lockList cur L) fun p hp =>
      (mem_lockList L cur p).mpr (Or.inr hp)

/-- C10: when the parsed request repeats the same invalid identifier, the
validation pass removes only one occurrence (`dict` keys collapse the
duplicates and `list.remove` drops only the first match), so the remaining
occurrence is processed as valid: on a lock it is appended to the persisted
DisabledList (and written verbatim when the current value is absent). -/
theorem C10_dup_invalid (p : Ident) (c : Catalog) (cur : List Ident) (sn : Option String)
    (hinv : p ∉ catalogValues c) (hcur : p ∉ cur) :
    validateFilter [p, p] c = [p] ∧
    (runLock ⟨some cur, sn⟩ [p]).disabled = some (cur ++ [p]) ∧
    (runLock ⟨none, sn⟩ [p]).disabled = some [p] := by
  refine ⟨?_, ?_, rfl⟩
  · unfold validateFilter invalidIds
    have hdd : ([p, p] : List Ident).dedup = [p] := by
      rw [List.dedup_cons_of_mem (List.mem_singleton.mpr rfl)]
      exact List.dedup_eq_self.mpr (List.nodup_singleton p)
    have hv : isValidId c p = false := by
      simp [isValidId, hinv]
    rw [hdd, show ([p] : List Ident).filter (fun q => !isValidId c q) = [p] by
      simp [List.filter_cons, hv]]
    show ([p, p] : List Ident).erase p = [p]
    exact List.erase_cons_head p [p]
  · show some (lockList cur [p]) = _
    rw [show lockList cur [p] = if p ∈ cur then cur else cur ++ [p] from rfl, if_neg hcur]

/-- Witness for C10 at the invalid identifier `"x.y"` over the catalog
`{"a.b" ↦ "a.b"}`, current list `["a.b"]`. -/
theorem C10_dup_invalid_witness :
    ("x.y" ∉ catalogValues [("a.b", "a.b")]) ∧
    validateFilter ["x.y", "x.y"] [("a.b", "a.b")] = ["x.y"] ∧
    (runLock ⟨some ["a.b"], none⟩ ["x.y"]).disabled = some (["a.b"] ++ ["x.y"]) ∧
    (runLock ⟨none, none⟩ ["x.y"]).disabled = some ["x.y"] := by
  have h := C10_dup_invalid "x.y" [("a.b", "a.b")] ["a.b"] none (by decide) (by decide)
  exact ⟨by decide, h.1, h.2.1, h.2.2⟩

end PrefPaneUtil
